import Mathlib

/-!
# Verification of the AI-Employee task lifecycle and reconciliation engine

This file gives a shallow embedding of the reconciliation core of the
repository (`src/orchestrator.py`, `src/scripts/weekly_audit.py`,
`src/watchers/filesystem_watcher.py`) and proves or refutes the frozen
claims about it.

Modelling conventions:
* A stored file is a name (with extension) plus its text content as a list
  of lines.  A vault partition (`Needs_Action`, `Done`, …) is a list of
  stored files; `glob('*.md')` is the filter keeping names that end in
  `".md"`.
* Fallible I/O (reading a file, appending to the action log, `shutil.move`)
  is driven by an explicit environment `Env` mapping a file name to the
  point at which processing it raises, or `none` when processing succeeds.
  The environment is fixed across a run, which models "no external change".
* `datetime.now()` is an explicit parameter: `nowIso` (its `isoformat()`
  string) for the orchestrator, an integer epoch-second value for the
  weekly audit's arithmetic on timestamps.
* Side effects are recorded in an event trace (`Event`): `logger.info` /
  `logger.error` calls that the claims mention, appended action-log lines,
  and `shutil.move` calls.
-/

namespace AIEmployee

/-! ### Kernel-reducible string primitives

The Python string operations the sources use are modelled over the
character list of a `String` (several of the library's `String` functions
do not reduce inside the kernel, so concrete witnesses could not be
checked with them).  Each primitive mirrors the Python operation named in
its doc string. -/

/-- ASCII lower-casing of one character, as `str.lower` does on the ASCII
headers these files carry. -/
def lowerChar (c : Char) : Char :=
  if 'A' ≤ c ∧ c ≤ 'Z' then Char.ofNat (c.toNat + 32) else c

/-- Python `str.lower()`. -/
def pyLower (s : String) : String := ⟨s.data.map lowerChar⟩

/-- Python `str.startswith(p)`. -/
def pyStartsWith (s p : String) : Bool := p.data.isPrefixOf s.data

/-- Python `str.endswith(p)`, which is also what the `*.md` glob tests. -/
def pyEndsWith (s p : String) : Bool := p.data.isSuffixOf s.data

/-- The characters Python's default `str.strip()` removes. -/
def pyIsWs (c : Char) : Bool :=
  c == ' ' || c == '\t' || c == '\n' || c == '\r' ||
    c == Char.ofNat 11 || c == Char.ofNat 12

/-- Python `str.strip()`. -/
def pyTrim (s : String) : String :=
  ⟨((s.data.dropWhile pyIsWs).reverse.dropWhile pyIsWs).reverse⟩

/-- Fuel-driven split of a character list at each leftmost occurrence of
`sep`; the fuel is an upper bound on the length, so the fallback arm is
never reached at the call below. -/
def splitOnCharsFuel (sep : List Char) : Nat → List Char → List (List Char)
  | _, [] => [[]]
  | 0, l => [l]
  | fuel + 1, c :: cs =>
      if sep.isPrefixOf (c :: cs) then
        [] :: splitOnCharsFuel sep fuel ((c :: cs).drop sep.length)
      else
        match splitOnCharsFuel sep fuel cs with
        | [] => [[c]]
        | g :: gs => (c :: g) :: gs

/-- Python `str.split(sep)` for a non-empty separator (every call site
passes one). -/
def pySplitOn (s sep : String) : List String :=
  if sep.data.isEmpty then [s]
  else (splitOnCharsFuel sep.data (s.data.length + 1) s.data).map String.mk

/-- Fuel-driven replacement of each leftmost occurrence of `pat`. -/
def replaceCharsFuel (pat rep : List Char) : Nat → List Char → List Char
  | _, [] => []
  | 0, l => l
  | fuel + 1, c :: cs =>
      if pat.isPrefixOf (c :: cs) then
        rep ++ replaceCharsFuel pat rep fuel ((c :: cs).drop pat.length)
      else
        c :: replaceCharsFuel pat rep fuel cs

/-- Python `str.replace(pat, rep)` for a non-empty pattern (every call
site passes one). -/
def pyReplace (s pat rep : String) : String :=
  if pat.data.isEmpty then s
  else ⟨replaceCharsFuel pat.data rep.data (s.data.length + 1) s.data⟩

/-- Python `int(s)` on an all-digit string, as `datetime.fromisoformat`
parses each numeric field; anything else fails. -/
def pyToNat (s : String) : Option Nat :=
  if s.data ≠ [] ∧ s.data.all (fun c => decide ('0' ≤ c) && decide (c ≤ '9')) then
    some (s.data.foldl (fun acc c => acc * 10 + (c.toNat - 48)) 0)
  else none

/-- A file stored in one of the vault folders: its file name (including the
extension) and its content, line by line. -/
structure VaultFile where
  name : String
  content : List String
deriving DecidableEq, Repr

/-- `glob('*.md')` on a folder: keep exactly the files whose name ends in
`".md"` (pathlib's `*` matches any prefix, including hidden names). -/
def globMd (l : List VaultFile) : List VaultFile :=
  l.filter (fun f => pyEndsWith f.name ".md")

/-- The point inside the per-record body of
`AIEmployeeOrchestrator.process_approved_actions` at which processing a
record raises: at `f.read_text` (src/orchestrator.py:264), at the
`_write_log` append (line 271), or at `shutil.move` (line 275). -/
inductive FailPoint where
  | read
  | writeLog
  | move
deriving DecidableEq, Repr

/-- The I/O environment: for each file name, whether processing it fails
and where.  `none` means every step succeeds. -/
def Env : Type := String → Option FailPoint

/-- Observable side effects of a pass, in order. -/
inductive Event where
  /-- A `logger.info` call. -/
  | infoLog (msg : String)
  /-- A line appended to the orchestrator action log by `_write_log`. -/
  | logEntry (line : String)
  /-- A `shutil.move` of file `name` from partition `src` to `dst`. -/
  | move (name src dst : String)
  /-- A `logger.error` call in an `except` branch. -/
  | errorLog (msg : String)
deriving DecidableEq, Repr

/-- Per-record result of the `try`/`except` body in
`process_approved_actions`.  The code produces only `ok` (the `try` block
ran to completion) or `errorLogged` (the `except` branch ran).  `conflict`
is the distinct `Conflict` outcome from the specification's error taxonomy
(spec §7); it is included so that claims comparing the code with that
taxonomy can be stated, and the embedding never produces it. -/
inductive Outcome where
  | ok
  | conflict
  | errorLogged
deriving DecidableEq, Repr

/-- The durable state the orchestrator touches: the vault folders
(`src/orchestrator.py:26-34`), the appended action-log lines, and the
dashboard file (`none` when `Dashboard.md` does not exist). -/
structure Dashboard where
  lastUpdated : String
  statusLine : String
  watchersLine : String
  lastCheck : String
  pendingActions : Nat
  completedTasks : Nat
  awaitingApproval : Nat
  plansCreated : Nat
  quickNA : Nat
  quickPlans : Nat
  quickDone : Nat
  quickProcessedToday : Nat
  quickDetections : Nat
  silverPresent : Bool
  silverWatchers : String
  silverMcp : String
  silverApprovals : Nat
  rest : String
deriving DecidableEq, Repr

/-- The vault: one list of files per lifecycle folder, the action log and
the dashboard. -/
structure Vault where
  needsAction : List VaultFile
  done : List VaultFile
  pendingApproval : List VaultFile
  approved : List VaultFile
  rejected : List VaultFile
  plans : List VaultFile
  logs : List String
  dashboard : Option Dashboard
deriving DecidableEq, Repr

/-- `AIEmployeeOrchestrator.extract_field` (src/orchestrator.py:86-90):
`re.search(rf'^{field}:\s*(.+)$', content, MULTILINE | IGNORECASE)`.
The first line that starts (case-insensitively) with `field ++ ":"` and has
a non-empty remainder matches; the captured group is that remainder with
surrounding whitespace stripped. -/
def extract_field (content : List String) (field : String) : Option String :=
  content.findSome? fun line =>
    let rest := line.drop (field.length + 1)
    if pyStartsWith (pyLower line) (pyLower field ++ ":") && !(rest == "") then
      some (pyTrim rest)
    else none

/-- Python prints `None` for a missing `action_type` in the f-string. -/
def actionStr : Option String → String
  | none => "None"
  | some v => v

/-- The action-log line written for a processed approval
(src/orchestrator.py:270). -/
def approvalLogEntry (nowIso : String) (f : VaultFile) : String :=
  "[" ++ nowIso ++ "] Processed approval: " ++ f.name ++ " (action: "
    ++ actionStr (extract_field f.content "action") ++ ")\n"

/-- The events emitted by one iteration of the `for f in approved_files`
loop (src/orchestrator.py:262-279), by failure point:
read fails → only the `except` branch's `logger.error`;
log-append fails → the initial `logger.info` then the error;
move fails → info, the appended log line, then the error;
success → info, log line, the move, and the final `logger.info`. -/
def eventsFor (env : Env) (nowIso : String) (f : VaultFile) : List Event :=
  match env f.name with
  | some FailPoint.read =>
      [Event.errorLog ("Error processing approved action " ++ f.name)]
  | some FailPoint.writeLog =>
      [Event.infoLog ("Processing approved action: " ++ f.name ++ " (type: "
          ++ actionStr (extract_field f.content "action") ++ ")"),
       Event.errorLog ("Error processing approved action " ++ f.name)]
  | some FailPoint.move =>
      [Event.infoLog ("Processing approved action: " ++ f.name ++ " (type: "
          ++ actionStr (extract_field f.content "action") ++ ")"),
       Event.logEntry (approvalLogEntry nowIso f),
       Event.errorLog ("Error processing approved action " ++ f.name)]
  | none =>
      [Event.infoLog ("Processing approved action: " ++ f.name ++ " (type: "
          ++ actionStr (extract_field f.content "action") ++ ")"),
       Event.logEntry (approvalLogEntry nowIso f),
       Event.move f.name "Approved" "Done",
       Event.infoLog ("Moved " ++ f.name ++ " to Done")]

/-- State change and outcome of one iteration of the loop body of
`process_approved_actions`: on success the log line is appended and the
file is moved from `Approved` to `Done` (`shutil.move` replaces an existing
destination of the same name); if the move raises the log line was already
appended but the file stays; if reading or logging raises, the state is
unchanged.  All exceptions are caught by the `except` clause. -/
def processOne (env : Env) (nowIso : String) (s : Vault) (f : VaultFile) :
    Vault × Outcome :=
  match env f.name with
  | some FailPoint.read => (s, Outcome.errorLogged)
  | some FailPoint.writeLog => (s, Outcome.errorLogged)
  | some FailPoint.move =>
      ({ s with logs := s.logs ++ [approvalLogEntry nowIso f] }, Outcome.errorLogged)
  | none =>
      ({ s with
          logs := s.logs ++ [approvalLogEntry nowIso f],
          approved := s.approved.filter (fun x => x.name != f.name),
          done := s.done.filter (fun x => x.name != f.name) ++ [f] },
        Outcome.ok)

/-- The `for` loop of `process_approved_actions` over the snapshot of
`Approved` taken at the start of the pass, threading the vault state and
collecting the event trace. -/
def processList (env : Env) (nowIso : String) :
    List VaultFile → Vault → Vault × List Event
  | [], s => (s, [])
  | f :: fs, s =>
      let s' := (processOne env nowIso s f).1
      let r := processList env nowIso fs s'
      (r.1, eventsFor env nowIso f ++ r.2)

/-- `check_needs_action` (src/orchestrator.py:52-57). -/
def check_needs_action (s : Vault) : List VaultFile := globMd s.needsAction

/-- `check_pending_approvals` (src/orchestrator.py:59-63). -/
def check_pending_approvals (s : Vault) : List VaultFile := globMd s.pendingApproval

/-- `check_approved_actions` (src/orchestrator.py:65-69). -/
def check_approved_actions (s : Vault) : List VaultFile := globMd s.approved

/-- Python substring test `needle in line` for a single line. -/
def containsSub (line needle : String) : Bool :=
  (pySplitOn line needle).length > 1

/-- `check_active_plans` (src/orchestrator.py:71-84): the `*.md` plan files
whose content contains `'status: in_progress'` (lower-cased); a file whose
read raises is logged at debug level and skipped. -/
def check_active_plans (env : Env) (s : Vault) : List VaultFile :=
  (globMd s.plans).filter fun f =>
    if env f.name = some FailPoint.read then false
    else f.content.any (fun line => containsSub (pyLower line) "status: in_progress")

/-- `process_approved_actions` (src/orchestrator.py:258-279). -/
def process_approved_actions (env : Env) (nowIso : String) (s : Vault) :
    Vault × List Event :=
  processList env nowIso (check_approved_actions s) s

/-- `process_rejected_actions` (src/orchestrator.py:281-289): enumerates
`Rejected/*.md` and, for each, only calls
`logger.info(f'Archiving rejected action: {f.name}')`.  No file is moved,
copied or deleted. -/
def process_rejected_actions (s : Vault) : Vault × List Event :=
  (s, (globMd s.rejected).map
        (fun f => Event.infoLog ("Archiving rejected action: " ++ f.name)))

/-- The text that the regex substitution on `**Watchers Running**:` writes
(src/orchestrator.py:126-130), identical to the line `_create_dashboard`
emits (line 215, minus the `- ` bullet that the regex leaves in place). -/
def watchersRunningLine : String :=
  "**Watchers Running**: File System ✅, Gmail ⚙️, WhatsApp ⚙️, LinkedIn ⚙️"

/-- The `Watchers Active` table cell after substitution
(src/orchestrator.py:181-185, with `watchers_active = 4`), identical to the
row `_create_dashboard` emits (line 227). -/
def silverWatchersVal : String :=
  "| Watchers Active | 4 (File, Gmail, WhatsApp, LinkedIn) |"

/-- The `MCP Servers` table cell after substitution
(src/orchestrator.py:186-190, with `mcp_servers_active = 2`), identical to
line 228 of `_create_dashboard`. -/
def silverMcpVal : String :=
  "| MCP Servers | 2 (Email, LinkedIn) |"

/-- The four folder counts computed at the top of `update_dashboard`
(src/orchestrator.py:95-98): `*.md` files in `Needs_Action`, `Done`,
`Pending_Approval`, and the number of active plans. -/
def countsOf (env : Env) (s : Vault) : Nat × Nat × Nat × Nat :=
  ((globMd s.needsAction).length,
   (globMd s.done).length,
   (globMd s.pendingApproval).length,
   (check_active_plans env s).length)

/-- The regex substitutions `update_dashboard` applies to an existing
dashboard (src/orchestrator.py:107-197).  Each substitution targets one
line pattern; the model keeps those lines as fields and everything the
regexes never touch in `rest` and the `quick*` fields (the `Plans Created`,
`Files Processed Today` and `Watcher Detections` rows of the Quick Stats
table have no corresponding substitution).  The Silver-metrics rows are
rewritten only when the `## Silver Tier Metrics` section is present. -/
def applySubs (c : Nat × Nat × Nat × Nat) (nowIso : String) (d : Dashboard) :
    Dashboard :=
  { d with
      lastUpdated := nowIso
      statusLine := "status: active"
      watchersLine := watchersRunningLine
      lastCheck := nowIso
      pendingActions := c.1
      completedTasks := c.2.1
      awaitingApproval := c.2.2.1
      plansCreated := c.2.2.2
      quickNA := c.1
      quickDone := c.2.1
      silverWatchers := if d.silverPresent then silverWatchersVal else d.silverWatchers
      silverMcp := if d.silverPresent then silverMcpVal else d.silverMcp
      silverApprovals := if d.silverPresent then c.2.2.1 else d.silverApprovals }

/-- The fixed surrounding text of the dashboard `_create_dashboard` writes
(src/orchestrator.py:203-256); the claim-relevant lines are modelled as the
structure fields. -/
def dashboardSkeleton : String := "# AI Employee Dashboard"

/-- `_create_dashboard` (src/orchestrator.py:203-256): a fresh dashboard
with the current counts, `status: active`, the Silver-metrics section
present, and the Quick Stats rows initialised from the same counts. -/
def mkDashboard (c : Nat × Nat × Nat × Nat) (nowIso : String) : Dashboard :=
  { lastUpdated := nowIso
    statusLine := "status: active"
    watchersLine := watchersRunningLine
    lastCheck := nowIso
    pendingActions := c.1
    completedTasks := c.2.1
    awaitingApproval := c.2.2.1
    plansCreated := c.2.2.2
    quickNA := c.1
    quickPlans := c.2.2.2
    quickDone := c.2.1
    quickProcessedToday := c.2.1
    quickDetections := c.1
    silverPresent := true
    silverWatchers := silverWatchersVal
    silverMcp := silverMcpVal
    silverApprovals := c.2.2.1
    rest := dashboardSkeleton }

/-- `update_dashboard` (src/orchestrator.py:92-201): recounts the folders,
then rewrites the existing dashboard in place, or creates a new one when
`Dashboard.md` is missing. -/
def update_dashboard (env : Env) (nowIso : String) (s : Vault) : Vault :=
  let c := countsOf env s
  match s.dashboard with
  | some d => { s with dashboard := some (applySubs c nowIso d) }
  | none => { s with dashboard := some (mkDashboard c nowIso) }

/-- `trigger_claude_processing` (src/orchestrator.py:297-314): when
`Needs_Action` holds `*.md` files it logs them and updates the dashboard;
otherwise it only logs.  It moves nothing. -/
def trigger_claude_processing (env : Env) (nowIso : String) (s : Vault) : Vault :=
  if (check_needs_action s).isEmpty then s else update_dashboard env nowIso s

/-- One iteration of the orchestrator loop (src/orchestrator.py:324-337):
process approved actions, archive rejected actions, trigger Claude
processing, update the dashboard.  Returns the new vault state and the
event trace of the iteration. -/
def runPass (env : Env) (nowIso : String) (s : Vault) : Vault × List Event :=
  let r1 := process_approved_actions env nowIso s
  let r2 := process_rejected_actions r1.1
  let s3 := trigger_claude_processing env nowIso r2.1
  (update_dashboard env nowIso s3, r1.2 ++ r2.2)

/-- `n` iterations of the orchestrator loop. -/
def runPasses (env : Env) (nowIso : String) : Nat → Vault → Vault
  | 0, s => s
  | n + 1, s => runPasses env nowIso n (runPass env nowIso s).1

/-- The `shutil.move` events of a trace. -/
def movesOf (ev : List Event) : List Event :=
  ev.filter fun e =>
    match e with
    | Event.move _ _ _ => true
    | _ => false

/-! ## Weekly audit (`src/scripts/weekly_audit.py`) -/

/-- A file as seen by the weekly audit: name, content lines, and the
`st_mtime` modification time in epoch seconds. -/
structure AuditFile where
  name : String
  content : List String
  mtime : Int
deriving DecidableEq, Repr

/-- `WeeklyAuditGenerator.extract_field` (weekly_audit.py:106-111): scan
the first 30 lines for one that starts (after lower-casing the line) with
`field ++ ":"`; return everything after the first colon, stripped. -/
def wa_extract_field (content : List String) (field : String) : Option String :=
  (content.take 30).findSome? fun line =>
    if pyStartsWith (pyLower line) (field ++ ":") then
      some (pyTrim (String.intercalate ":" (pySplitOn line ":").tail))
    else none

/-- Days since 1970-01-01 of a proleptic-Gregorian civil date, the
arithmetic underlying `datetime`; divisions are truncating, as in the
reference algorithm, and all intermediate divisions act on non-negative
values for the dates handled here. -/
def daysFromCivil (y m d : Int) : Int :=
  let y2 := if m ≤ 2 then y - 1 else y
  let era := (if 0 ≤ y2 then y2 else y2 - 399) / 400
  let yoe := y2 - era * 400
  let doy := (153 * (m + (if 2 < m then -3 else 9)) + 2) / 5 + d - 1
  let doe := yoe * 365 + yoe / 4 - yoe / 100 + doy
  era * 146097 + doe - 719468

/-- `datetime.fromisoformat` on the date part `YYYY-MM-DD` (the canonical
form the vault's record headers use). -/
def parseDatePart (s : String) : Option (Int × Int × Int) :=
  match pySplitOn s "-" with
  | [ys, ms, ds] => do
      let y ← pyToNat ys
      let m ← pyToNat ms
      let d ← pyToNat ds
      if 1 ≤ m ∧ m ≤ 12 ∧ 1 ≤ d ∧ d ≤ 31 then
        some ((y : Int), (m : Int), (d : Int))
      else none
  | _ => none

/-- `datetime.fromisoformat` on the time part `HH:MM[:SS]`. -/
def parseTimePart (s : String) : Option (Int × Int × Int) :=
  match pySplitOn s ":" with
  | [hs, ms] => do
      let h ← pyToNat hs
      let mi ← pyToNat ms
      if h ≤ 23 ∧ mi ≤ 59 then some ((h : Int), (mi : Int), 0) else none
  | [hs, ms, ss] => do
      let h ← pyToNat hs
      let mi ← pyToNat ms
      let se ← pyToNat ss
      if h ≤ 23 ∧ mi ≤ 59 ∧ se ≤ 59 then
        some ((h : Int), (mi : Int), (se : Int))
      else none
  | _ => none

/-- `datetime.fromisoformat` mapped to epoch seconds, for the canonical
`YYYY-MM-DD[THH:MM[:SS]]` forms; any other input fails, as the surrounding
`try`/`except` in `analyze_bottlenecks` expects. -/
def isoToEpoch (s : String) : Option Int :=
  match pySplitOn s "T" with
  | [ds] =>
      (parseDatePart ds).map (fun p => daysFromCivil p.1 p.2.1 p.2.2 * 86400)
  | [ds, ts] => do
      let p ← parseDatePart ds
      let t ← parseTimePart ts
      some (daysFromCivil p.1 p.2.1 p.2.2 * 86400 + t.1 * 3600 + t.2.1 * 60 + t.2.2)
  | _ => none

/-- `(now - mtime).days`: Python's `timedelta.days` floors, hence `fdiv`. -/
def age_days (now : Int) (f : AuditFile) : Int :=
  Int.fdiv (now - f.mtime) 86400

/-- The bottleneck entries produced by
`WeeklyAuditGenerator.analyze_bottlenecks` (weekly_audit.py:113-150). -/
structure Bottleneck where
  issue : String
  item : String
  impact : String
  recommendation : String
deriving DecidableEq, Repr

/-- The entry built for a stale `Needs_Action` file
(weekly_audit.py:124-129). -/
def na_bottleneck (now : Int) (f : AuditFile) : Bottleneck :=
  { issue := "Item in Needs_Action for " ++ toString (age_days now f) ++ " days"
    item := f.name
    impact := if age_days now f < 7 then "Medium" else "High"
    recommendation := "Review and process or archive" }

/-- The body of the pending-approval loop of `analyze_bottlenecks`
(weekly_audit.py:134-148): a file is flagged as `"Approval expired"` when
its (truthy) `expires` field, with `Z`/`+00:00` suffixes stripped, parses
to an instant strictly before `now`; a missing, empty or unparseable value
(the `except` clause) yields nothing. -/
def pending_bottleneck (now : Int) (f : AuditFile) : Option Bottleneck :=
  match wa_extract_field f.content "expires" with
  | none => none
  | some e =>
      if e == "" then none
      else
        match isoToEpoch (pyReplace (pyReplace e "Z" "+00:00") "+00:00" "") with
        | none => none
        | some t =>
            if t < now then
              some { issue := "Approval expired"
                     item := f.name
                     impact := "High"
                     recommendation := "Review and approve/reject or create new request" }
            else none

/-- `analyze_bottlenecks` (weekly_audit.py:113-150): a `Needs_Action` file
is flagged when `(now - mtime).days > 3`; a pending-approval file when
`pending_bottleneck` flags it. -/
def analyze_bottlenecks (now : Int)
    (needs_action_files pending_files : List AuditFile) : List Bottleneck :=
  (needs_action_files.filter (fun f => 3 < age_days now f)).map (na_bottleneck now)
    ++ pending_files.filterMap (pending_bottleneck now)

/-- `get_week_start` (weekly_audit.py:47-49): subtract `weekday()` days,
keeping the time of day.  Epoch day 0 was a Thursday, so Python's
Monday-based `weekday()` of the civil date of `t` is `(t // 86400 + 3) % 7`. -/
def get_week_start (date : Int) : Int :=
  date - 86400 * ((Int.fdiv date 86400 + 3) % 7)

/-- `get_files_in_week` (weekly_audit.py:51-67): the `*.md` files whose
mtime satisfies `week_start <= mtime < week_start + 7 days`. -/
def get_files_in_week (folder : List AuditFile) (week_start : Int) : List AuditFile :=
  folder.filter (fun f =>
    pyEndsWith f.name ".md" && decide (week_start ≤ f.mtime) &&
      decide (f.mtime < week_start + 7 * 86400))

/-- The bottleneck list as `generate_audit` computes it
(weekly_audit.py:179-198): `needs_action_files` is pre-filtered by
`get_files_in_week(self.needs_action, week_start)` with
`week_start = get_week_start(now)`, while `pending_files` is the plain
`*.md` enumeration of `Pending_Approval`. -/
def audit_bottlenecks (now : Int)
    (needsAction pendingApproval : List AuditFile) : List Bottleneck :=
  analyze_bottlenecks now
    (get_files_in_week needsAction (get_week_start now))
    (pendingApproval.filter (fun f => pyEndsWith f.name ".md"))

/-! ## File-system watcher (`src/watchers/filesystem_watcher.py`) -/

/-- The source file dropped into the Inbox, as
`DropFolderHandler.create_action_file` reads it: its name, stem (name
without the final suffix), suffix, absolute path, and size. -/
structure SourceFile where
  name : String
  stem : String
  suffix : String
  pathAbs : String
  sizeBytes : Nat
deriving DecidableEq, Repr

/-- The action-file name `FILE_{timestamp}_{source.stem}.md` built at
filesystem_watcher.py:50-51; `timestamp` is
`datetime.now().strftime('%Y%m%d_%H%M%S')`, i.e. one-second granularity. -/
def fileActionName (timestamp stem : String) : String :=
  "FILE_" ++ timestamp ++ "_" ++ stem ++ ".md"

/-- The frontmatter of the generated action file
(filesystem_watcher.py:57-66); the free-text body below the frontmatter
carries no data any claim depends on and is represented by its heading. -/
def fileDropContent (src : SourceFile) (detectedIso : String) : List String :=
  ["---",
   "type: file_drop",
   "original_name: " ++ src.name,
   "file_path: " ++ src.pathAbs,
   "size_bytes: " ++ toString src.sizeBytes,
   "file_type: " ++ src.suffix,
   "detected: " ++ detectedIso,
   "priority: medium",
   "status: pending",
   "---",
   "## New File Detected"]

/-- The `Needs_Action` folder as a name-indexed store of files. -/
abbrev Store : Type := List (String × List String)

/-- `Path.write_text` (filesystem_watcher.py:88): creates the file or
silently truncates and replaces an existing file of the same name. -/
def write_text (store : Store) (name : String) (content : List String) : Store :=
  store.filter (fun p => p.1 != name) ++ [(name, content)]

/-- The content stored under `name`, if any. -/
def lookupStore (store : Store) (name : String) : Option (List String) :=
  (store.find? (fun p => p.1 == name)).map (fun p => p.2)

/-- `DropFolderHandler.create_action_file`
(filesystem_watcher.py:48-89): build the name from timestamp and stem,
render the content, and `write_text` it into `Needs_Action`.  There is no
existence check and no failure path. -/
def create_action_file (store : Store) (timestamp : String) (src : SourceFile)
    (detectedIso : String) : Store :=
  write_text store (fileActionName timestamp src.stem) (fileDropContent src detectedIso)

/-- Modelled from the spec: the Task Store's
`create(state, record) -> handle`, which "fails with `DuplicateId` if a
record with the same id already exists anywhere in the store" (spec §4.2);
this operation is absent from the code, which writes unconditionally. -/
inductive CreateResult where
  | created (store : Store)
  | duplicateId
deriving DecidableEq, Repr

/-- Modelled from the spec: creation with the `DuplicateId` guard of
spec §4.2/§6, for comparison with `create_action_file`. -/
def create_spec (store : Store) (name : String) (content : List String) :
    CreateResult :=
  if store.any (fun p => p.1 == name) then CreateResult.duplicateId
  else CreateResult.created (store ++ [(name, content)])

/-! ## Concrete inputs used to witness the theorems -/

/-- Environment in which every record processes successfully. -/
def wEnvNone : Env := fun _ => none

/-- Environment in which reading any record raises. -/
def wEnvRead : Env := fun _ => some FailPoint.read

/-- Environment in which every `shutil.move` raises (the record is gone
from `Approved` at move time). -/
def wEnvMove : Env := fun _ => some FailPoint.move

/-- Environment in which only `b.md` fails (at read). -/
def wEnvOnlyB : Env := fun n => if n == "b.md" then some FailPoint.read else none

/-- A vault with two approved records and one active plan. -/
def wVaultAB : Vault :=
  { needsAction := []
    done := []
    pendingApproval := []
    approved := [⟨"a.md", ["action: send_email"]⟩, ⟨"b.md", []⟩]
    rejected := []
    plans := [⟨"plan.md", ["status: in_progress"]⟩]
    logs := []
    dashboard := none }

/-- A vault with a single approved record `r3.md`. -/
def wVaultR3 : Vault :=
  { needsAction := []
    done := []
    pendingApproval := []
    approved := [⟨"r3.md", []⟩]
    rejected := []
    plans := []
    logs := []
    dashboard := none }

/-- A record without the `.md` extension. -/
def wNonMd : VaultFile := ⟨"notes.txt", []⟩

/-- A pending-approval record whose `expires` header lies in the past. -/
def wPendingExpired : AuditFile := ⟨"r2.md", ["expires: 2020-01-01T00:00:00"], 0⟩

/-- A `Needs_Action` record last modified 10 days before `wNow`. -/
def wStaleNA : AuditFile := ⟨"old.md", [], 1699136000⟩

/-- A reference instant (2023-11-14T22:13:20 UTC as epoch seconds). -/
def wNow : Int := 1700000000

/-- A second reference instant, a Saturday, so that the audit's weekly
window reaches 5 days back. -/
def wNow2 : Int := 1700345600

/-- A `Needs_Action` record 4 days old and inside the week window at
`wNow2`. -/
def wWindowStale : AuditFile := ⟨"win.md", [], 1699999999⟩

/-- A dropped source file. -/
def wSrcReport : SourceFile := ⟨"report.txt", "report", ".txt", "/inbox/report.txt", 10⟩

/-- A different dropped source file with the same stem. -/
def wSrcReport2 : SourceFile := ⟨"report.doc", "report", ".doc", "/other/report.doc", 20⟩

/-- A store already holding a record under the colliding action-file name. -/
def wOldStore : Store := [(fileActionName "20250101_120000" "report", ["old content"])]

/-! ## Basic lemmas about the pass -/

theorem processOne_fixed (env : Env) (t : String) (s : Vault) (f : VaultFile) :
    ((processOne env t s f).1).needsAction = s.needsAction ∧
    ((processOne env t s f).1).pendingApproval = s.pendingApproval ∧
    ((processOne env t s f).1).rejected = s.rejected ∧
    ((processOne env t s f).1).plans = s.plans ∧
    ((processOne env t s f).1).dashboard = s.dashboard := by
  cases h : env f.name with
  | none => simp [processOne, h]
  | some p => cases p <;> simp [processOne, h]

theorem processOne_approved_none (env : Env) (t : String) (s : Vault) (f : VaultFile)
    (h : env f.name = none) :
    ((processOne env t s f).1).approved
      = s.approved.filter (fun x => x.name != f.name) := by
  simp [processOne, h]

theorem processOne_approved_some (env : Env) (t : String) (s : Vault) (f : VaultFile)
    (p : FailPoint) (h : env f.name = some p) :
    ((processOne env t s f).1).approved = s.approved := by
  cases p <;> simp [processOne, h]

theorem processOne_done_none (env : Env) (t : String) (s : Vault) (f : VaultFile)
    (h : env f.name = none) :
    ((processOne env t s f).1).done
      = s.done.filter (fun x => x.name != f.name) ++ [f] := by
  simp [processOne, h]

theorem processOne_done_some (env : Env) (t : String) (s : Vault) (f : VaultFile)
    (p : FailPoint) (h : env f.name = some p) :
    ((processOne env t s f).1).done = s.done := by
  cases p <;> simp [processOne, h]

theorem processList_fixed (env : Env) (t : String) (files : List VaultFile) (s : Vault) :
    ((processList env t files s).1).needsAction = s.needsAction ∧
    ((processList env t files s).1).pendingApproval = s.pendingApproval ∧
    ((processList env t files s).1).rejected = s.rejected ∧
    ((processList env t files s).1).plans = s.plans ∧
    ((processList env t files s).1).dashboard = s.dashboard := by
  induction files generalizing s with
  | nil => simp [processList]
  | cons f fs ih =>
      have h1 := processOne_fixed env t s f
      have h2 := ih ((processOne env t s f).1)
      simp only [processList]
      exact ⟨h2.1.trans h1.1, h2.2.1.trans h1.2.1, h2.2.2.1.trans h1.2.2.1,
        h2.2.2.2.1.trans h1.2.2.2.1, h2.2.2.2.2.trans h1.2.2.2.2⟩

/-- Membership in `Approved` after the loop: a file survives iff it was
there and no successfully processed file of the snapshot shares its name. -/
theorem mem_processList_approved (env : Env) (t : String) (files : List VaultFile)
    (s : Vault) (x : VaultFile) :
    x ∈ ((processList env t files s).1).approved ↔
      x ∈ s.approved ∧ ∀ f ∈ files, env f.name = none → x.name ≠ f.name := by
  induction files generalizing s with
  | nil => simp [processList]
  | cons f fs ih =>
      simp only [processList]
      rw [ih]
      cases h : env f.name with
      | none =>
          rw [processOne_approved_none env t s f h]
          simp only [List.mem_filter, List.mem_cons, bne_iff_ne, ne_eq, decide_eq_true_eq]
          constructor
          · rintro ⟨⟨hx, hname⟩, hall⟩
            refine ⟨hx, ?_⟩
            intro g hg hgenv
            rcases hg with rfl | hg
            · exact hname
            · exact hall g hg hgenv
          · rintro ⟨hx, hall⟩
            exact ⟨⟨hx, hall f (Or.inl rfl) h⟩, fun g hg hgenv => hall g (Or.inr hg) hgenv⟩
      | some p =>
          rw [processOne_approved_some env t s f p h]
          constructor
          · rintro ⟨hx, hall⟩
            refine ⟨hx, ?_⟩
            intro g hg hgenv
            rcases List.mem_cons.mp hg with rfl | hg2
            · rw [hgenv] at h; cases h
            · exact hall g hg2 hgenv
          · rintro ⟨hx, hall⟩
            exact ⟨hx, fun g hg hgenv => hall g (List.mem_cons_of_mem f hg) hgenv⟩

theorem processList_allFail (env : Env) (t : String) (files : List VaultFile)
    (s : Vault) (h : ∀ f ∈ files, env f.name ≠ none) :
    ((processList env t files s).1).approved = s.approved ∧
    ((processList env t files s).1).done = s.done := by
  induction files generalizing s with
  | nil => simp [processList]
  | cons f fs ih =>
      simp only [processList]
      cases hf : env f.name with
      | none => exact absurd hf (h f (List.mem_cons_self f fs))
      | some p =>
          have ihs := ih ((processOne env t s f).1)
            (fun g hg => h g (List.mem_cons_of_mem f hg))
          refine ⟨ihs.1.trans ?_, ihs.2.trans ?_⟩
          · exact processOne_approved_some env t s f p hf
          · exact processOne_done_some env t s f p hf

theorem processList_events (env : Env) (t : String) (files : List VaultFile)
    (s : Vault) :
    (processList env t files s).2 = (files.map (eventsFor env t)).flatten := by
  induction files generalizing s with
  | nil => simp [processList]
  | cons f fs ih => simp [processList, ih]

theorem movesOf_append (a b : List Event) :
    movesOf (a ++ b) = movesOf a ++ movesOf b := by
  simp [movesOf, List.filter_append]

theorem movesOf_eventsFor_fail (env : Env) (t : String) (f : VaultFile)
    (h : env f.name ≠ none) :
    movesOf (eventsFor env t f) = [] := by
  cases hf : env f.name with
  | none => exact absurd hf h
  | some p => cases p <;> simp [eventsFor, hf, movesOf]

theorem movesOf_infoLogs (l : List VaultFile) (g : VaultFile → String) :
    movesOf (l.map (fun f => Event.infoLog (g f))) = [] := by
  induction l with
  | nil => rfl
  | cons f fs ih => simp [movesOf] at ih ⊢

theorem movesOf_join_fail (env : Env) (t : String) (files : List VaultFile)
    (h : ∀ f ∈ files, env f.name ≠ none) :
    movesOf ((files.map (eventsFor env t)).flatten) = [] := by
  induction files with
  | nil => rfl
  | cons f fs ih =>
      simp only [List.map_cons, List.flatten_cons]
      rw [movesOf_append, movesOf_eventsFor_fail env t f (h f (List.mem_cons_self f fs)),
        ih (fun g hg => h g (List.mem_cons_of_mem f hg))]
      rfl

/-! ## Dashboard lemmas -/

theorem applySubs_applySubs (c c' : Nat × Nat × Nat × Nat) (t t' : String)
    (d : Dashboard) :
    applySubs c t (applySubs c' t' d) = applySubs c t d := by
  cases d with
  | mk lu st wl lc pa ct aa pc qn qp qd qpt qdt sp sw sm sa r =>
      cases sp <;> simp [applySubs]

theorem applySubs_mkDashboard (c : Nat × Nat × Nat × Nat) (t : String) :
    applySubs c t (mkDashboard c t) = mkDashboard c t := by
  simp [applySubs, mkDashboard]

theorem update_dashboard_partitions (env : Env) (t : String) (s : Vault) :
    (update_dashboard env t s).needsAction = s.needsAction ∧
    (update_dashboard env t s).done = s.done ∧
    (update_dashboard env t s).pendingApproval = s.pendingApproval ∧
    (update_dashboard env t s).approved = s.approved ∧
    (update_dashboard env t s).rejected = s.rejected ∧
    (update_dashboard env t s).plans = s.plans ∧
    (update_dashboard env t s).logs = s.logs := by
  cases h : s.dashboard <;> simp [update_dashboard, h]

theorem trigger_partitions (env : Env) (t : String) (s : Vault) :
    (trigger_claude_processing env t s).needsAction = s.needsAction ∧
    (trigger_claude_processing env t s).done = s.done ∧
    (trigger_claude_processing env t s).pendingApproval = s.pendingApproval ∧
    (trigger_claude_processing env t s).approved = s.approved ∧
    (trigger_claude_processing env t s).rejected = s.rejected ∧
    (trigger_claude_processing env t s).plans = s.plans ∧
    (trigger_claude_processing env t s).logs = s.logs := by
  unfold trigger_claude_processing
  by_cases h : (check_needs_action s).isEmpty
  · simp [h]
  · simp [h, update_dashboard_partitions env t s]

theorem countsOf_congr (env : Env) (s s' : Vault)
    (h1 : s.needsAction = s'.needsAction) (h2 : s.done = s'.done)
    (h3 : s.pendingApproval = s'.pendingApproval) (h4 : s.plans = s'.plans) :
    countsOf env s = countsOf env s' := by
  simp only [countsOf, check_active_plans, globMd, h1, h2, h3, h4]

theorem update_dashboard_dashboard (env : Env) (t : String) (s : Vault) :
    (update_dashboard env t s).dashboard
      = some (match s.dashboard with
              | some d => applySubs (countsOf env s) t d
              | none => mkDashboard (countsOf env s) t) := by
  cases h : s.dashboard <;> simp [update_dashboard, h]

/-- After a pass, the dashboard is the substitution (or fresh creation)
driven by the folder counts taken after `process_approved_actions`. -/
theorem runPass_dashboard (env : Env) (t : String) (s : Vault) :
    (runPass env t s).1.dashboard
      = some (match s.dashboard with
              | some d => applySubs (countsOf env (process_approved_actions env t s).1) t d
              | none => mkDashboard (countsOf env (process_approved_actions env t s).1) t) := by
  have hAfix := processList_fixed env t (check_approved_actions s) s
  have hAdash : (process_approved_actions env t s).1.dashboard = s.dashboard :=
    hAfix.2.2.2.2
  show (update_dashboard env t
      (trigger_claude_processing env t (process_approved_actions env t s).1)).dashboard = _
  unfold trigger_claude_processing
  by_cases hNA : (check_needs_action (process_approved_actions env t s).1).isEmpty
  · rw [if_pos hNA, update_dashboard_dashboard, hAdash]
  · rw [if_neg hNA, update_dashboard_dashboard]
    have hparts := update_dashboard_partitions env t (process_approved_actions env t s).1
    have hcts : countsOf env (update_dashboard env t (process_approved_actions env t s).1)
        = countsOf env (process_approved_actions env t s).1 :=
      countsOf_congr env _ _ hparts.1 hparts.2.1 hparts.2.2.1 hparts.2.2.2.2.2.1
    rw [hcts, update_dashboard_dashboard, hAdash]
    cases hd : s.dashboard with
    | none => simp [applySubs_mkDashboard]
    | some d => simp [applySubs_applySubs]

theorem runPass_partitions (env : Env) (t : String) (s : Vault) :
    (runPass env t s).1.needsAction = s.needsAction ∧
    (runPass env t s).1.pendingApproval = s.pendingApproval ∧
    (runPass env t s).1.rejected = s.rejected ∧
    (runPass env t s).1.plans = s.plans ∧
    (runPass env t s).1.approved = (process_approved_actions env t s).1.approved ∧
    (runPass env t s).1.done = (process_approved_actions env t s).1.done := by
  have hAfix := processList_fixed env t (check_approved_actions s) s
  have ht := trigger_partitions env t (process_approved_actions env t s).1
  have hu := update_dashboard_partitions env t
    (trigger_claude_processing env t (process_approved_actions env t s).1)
  show (update_dashboard env t
      (trigger_claude_processing env t (process_approved_actions env t s).1)).needsAction = _ ∧ _
  refine ?_
  refine ⟨?_, ?_, ?_, ?_, ?_, ?_⟩
  · exact (hu.1.trans ht.1).trans hAfix.1
  · exact (hu.2.2.1.trans ht.2.2.1).trans hAfix.2.1
  · exact (hu.2.2.2.2.1.trans ht.2.2.2.2.1).trans hAfix.2.2.1
  · exact (hu.2.2.2.2.2.1.trans ht.2.2.2.2.2.1).trans hAfix.2.2.2.1
  · exact hu.2.2.2.1.trans ht.2.2.2.1
  · exact hu.2.1.trans ht.2.1

theorem process_approved_fixed (env : Env) (t : String) (s : Vault) :
    ((process_approved_actions env t s).1).needsAction = s.needsAction ∧
    ((process_approved_actions env t s).1).pendingApproval = s.pendingApproval ∧
    ((process_approved_actions env t s).1).rejected = s.rejected ∧
    ((process_approved_actions env t s).1).plans = s.plans ∧
    ((process_approved_actions env t s).1).dashboard = s.dashboard :=
  processList_fixed env t (check_approved_actions s) s

theorem mem_process_approved (env : Env) (t : String) (s : Vault) (x : VaultFile) :
    x ∈ ((process_approved_actions env t s).1).approved ↔
      x ∈ s.approved ∧
        ∀ f ∈ check_approved_actions s, env f.name = none → x.name ≠ f.name :=
  mem_processList_approved env t (check_approved_actions s) s x

theorem process_approved_allFail (env : Env) (t : String) (s : Vault)
    (h : ∀ f ∈ check_approved_actions s, env f.name ≠ none) :
    ((process_approved_actions env t s).1).approved = s.approved ∧
    ((process_approved_actions env t s).1).done = s.done :=
  processList_allFail env t (check_approved_actions s) s h

theorem process_approved_events (env : Env) (t : String) (s : Vault) :
    (process_approved_actions env t s).2
      = ((check_approved_actions s).map (eventsFor env t)).flatten :=
  processList_events env t (check_approved_actions s) s

/-- C1 — idempotence of the reconciliation pass.  Running the loop body of
`AIEmployeeOrchestrator.run` (process approved, process rejected, update
dashboard) twice in immediate succession — same I/O environment, no
external writes, same clock reading — performs zero `shutil.move` calls on
the second run and leaves the dashboard after the second run identical to
the dashboard after the first. -/
theorem claim_C1_pass_idempotent (env : Env) (t : String) (s : Vault) :
    movesOf (runPass env t (runPass env t s).1).2 = [] ∧
    (runPass env t (runPass env t s).1).1.dashboard = (runPass env t s).1.dashboard := by
  have hparts1 := runPass_partitions env t s
  have hfail : ∀ f ∈ check_approved_actions (runPass env t s).1, env f.name ≠ none := by
    intro f hf hnone
    have hf' : f ∈ (runPass env t s).1.approved ∧ pyEndsWith f.name ".md" = true := by
      simpa [check_approved_actions, globMd, List.mem_filter] using hf
    rw [hparts1.2.2.2.2.1] at hf'
    have hmem := (mem_process_approved env t s f).mp hf'.1
    have hfiles1 : f ∈ check_approved_actions s := by
      simp [check_approved_actions, globMd, List.mem_filter, hmem.1, hf'.2]
    exact hmem.2 f hfiles1 hnone rfl
  constructor
  · show movesOf ((process_approved_actions env t (runPass env t s).1).2
        ++ (globMd (process_approved_actions env t (runPass env t s).1).1.rejected).map
             (fun f => Event.infoLog ("Archiving rejected action: " ++ f.name))) = []
    rw [movesOf_append, process_approved_events,
      movesOf_join_fail env t _ hfail, movesOf_infoLogs]
    rfl
  · have hd2 := runPass_dashboard env t (runPass env t s).1
    have hd1 := runPass_dashboard env t s
    have hall := process_approved_allFail env t (runPass env t s).1 hfail
    have hfix2 := process_approved_fixed env t (runPass env t s).1
    have hfix1 := process_approved_fixed env t s
    have hc : countsOf env (process_approved_actions env t (runPass env t s).1).1
        = countsOf env (process_approved_actions env t s).1 := by
      apply countsOf_congr
      · rw [hfix2.1, hparts1.1, hfix1.1]
      · rw [hall.2, hparts1.2.2.2.2.2]
      · rw [hfix2.2.1, hparts1.2.1, hfix1.2.1]
      · rw [hfix2.2.2.2.1, hparts1.2.2.2.1, hfix1.2.2.2.1]
    rw [hd2, hc, hd1]
    cases hsd : s.dashboard with
    | none => simp [applySubs_mkDashboard]
    | some d0 => simp [applySubs_applySubs]

/-! ## Trace and `Done`-membership lemmas -/

/-- The pass trace contains the per-record event block of every file of the
snapshot, in place. -/
theorem processList_events_split (env : Env) (t : String) (files : List VaultFile)
    (s : Vault) (r : VaultFile) (hr : r ∈ files) :
    ∃ pre post, (processList env t files s).2 = pre ++ eventsFor env t r ++ post := by
  induction files generalizing s with
  | nil => cases hr
  | cons f fs ih =>
      rcases List.mem_cons.mp hr with rfl | hr2
      · exact ⟨[], (processList env t fs (processOne env t s r).1).2, by simp [processList]⟩
      · obtain ⟨pre, post, hsplit⟩ := ih ((processOne env t s f).1) hr2
        exact ⟨eventsFor env t f ++ pre, post, by simp [processList, hsplit]⟩

/-- Every `shutil.move` in the trace of the approved-actions loop comes
from a successfully processed snapshot file and goes from `Approved` to
`Done`. -/
theorem move_mem_flatten (env : Env) (t : String) (files : List VaultFile)
    (n src dst : String)
    (h : Event.move n src dst ∈ (files.map (eventsFor env t)).flatten) :
    ∃ f ∈ files, n = f.name ∧ env f.name = none ∧ src = "Approved" ∧ dst = "Done" := by
  induction files with
  | nil => simp at h
  | cons f fs ih =>
      simp only [List.map_cons, List.flatten_cons, List.mem_append] at h
      rcases h with h | h
      · cases hf : env f.name with
        | none =>
            rw [eventsFor, hf] at h
            simp only [List.mem_cons, List.not_mem_nil, or_false] at h
            rcases h with h | h | h | h
            · cases h
            · cases h
            · injection h with h1 h2 h3
              exact ⟨f, List.mem_cons_self f fs, h1, hf, h2, h3⟩
            · cases h
        | some p =>
            rw [eventsFor, hf] at h
            cases p <;> simp at h
      · obtain ⟨g, hg, hrest⟩ := ih h
        exact ⟨g, List.mem_cons_of_mem f hg, hrest⟩

/-- Membership in `Done` after the loop, assuming the snapshot has no
duplicate names (file names are unique within a folder): a file is in
`Done` afterwards iff it was there and survived the overwrites, or it is a
successfully processed snapshot file. -/
theorem mem_processList_done (env : Env) (t : String) (files : List VaultFile)
    (s : Vault) (x : VaultFile) (hnd : (files.map VaultFile.name).Nodup) :
    x ∈ ((processList env t files s).1).done ↔
      (x ∈ s.done ∧ ∀ f ∈ files, env f.name = none → x.name ≠ f.name)
      ∨ (x ∈ files ∧ env x.name = none) := by
  induction files generalizing s with
  | nil => simp [processList]
  | cons f fs ih =>
      rw [List.map_cons, List.nodup_cons] at hnd
      simp only [processList]
      rw [ih _ hnd.2]
      cases hf : env f.name with
      | some p =>
          rw [processOne_done_some env t s f p hf]
          constructor
          · rintro (⟨hx, hall⟩ | ⟨hx, hxe⟩)
            · refine Or.inl ⟨hx, ?_⟩
              intro g hg hge
              rcases List.mem_cons.mp hg with rfl | hg2
              · rw [hge] at hf; cases hf
              · exact hall g hg2 hge
            · exact Or.inr ⟨List.mem_cons_of_mem f hx, hxe⟩
          · rintro (⟨hx, hall⟩ | ⟨hx, hxe⟩)
            · exact Or.inl ⟨hx, fun g hg => hall g (List.mem_cons_of_mem f hg)⟩
            · rcases List.mem_cons.mp hx with rfl | hx2
              · rw [hxe] at hf; cases hf
              · exact Or.inr ⟨hx2, hxe⟩
      | none =>
          rw [processOne_done_none env t s f hf]
          have hmem : ∀ y : VaultFile,
              y ∈ s.done.filter (fun z => z.name != f.name) ++ [f] ↔
                (y ∈ s.done ∧ y.name ≠ f.name) ∨ y = f := by
            intro y
            simp [List.mem_filter]
          constructor
          · rintro (⟨hx, hall⟩ | ⟨hx, hxe⟩)
            · rcases (hmem x).mp hx with ⟨hx2, hne⟩ | rfl
              · refine Or.inl ⟨hx2, ?_⟩
                intro g hg hge
                rcases List.mem_cons.mp hg with rfl | hg2
                · exact hne
                · exact hall g hg2 hge
              · exact Or.inr ⟨List.mem_cons_self x fs, hf⟩
            · exact Or.inr ⟨List.mem_cons_of_mem f hx, hxe⟩
          · rintro (⟨hx, hall⟩ | ⟨hx, hxe⟩)
            · refine Or.inl ⟨(hmem x).mpr (Or.inl ⟨hx, hall f (List.mem_cons_self f fs) hf⟩), ?_⟩
              exact fun g hg => hall g (List.mem_cons_of_mem f hg)
            · rcases List.mem_cons.mp hx with rfl | hx2
              · refine Or.inl ⟨(hmem x).mpr (Or.inr rfl), ?_⟩
                intro g hg hge hname
                exact hnd.1 (hname ▸ List.mem_map_of_mem VaultFile.name hg)
              · exact Or.inr ⟨hx2, hxe⟩

/-- Filtering for one name commutes away a filter that removes a different
name. -/
theorem filter_name_filter_ne (l : List VaultFile) (n m : String) (h : n ≠ m) :
    (l.filter (fun x => x.name != m)).filter (fun x => x.name == n)
      = l.filter (fun x => x.name == n) := by
  rw [List.filter_filter]
  refine List.filter_congr ?_
  intro x _
  by_cases hx : x.name = n
  · subst hx
    simp [h]
  · simp [hx]

/-- The `Done` entries carrying a name whose processing fails are exactly
unchanged by the loop: nothing of that name is added or replaced. -/
theorem processList_done_name_fail (env : Env) (t : String) (files : List VaultFile)
    (s : Vault) (n : String) (h : env n ≠ none) :
    ((processList env t files s).1).done.filter (fun x => x.name == n)
      = s.done.filter (fun x => x.name == n) := by
  induction files generalizing s with
  | nil => simp [processList]
  | cons f fs ih =>
      simp only [processList]
      rw [ih]
      cases hf : env f.name with
      | some p => rw [processOne_done_some env t s f p hf]
      | none =>
          have hne : n ≠ f.name := by
            intro heq
            rw [heq] at h
            exact h hf
          rw [processOne_done_none env t s f hf, List.filter_append,
            filter_name_filter_ne s.done n f.name hne]
          have : [f].filter (fun x => x.name == n) = [] := by
            simp [List.filter_cons, hne.symm]
          rw [this, List.append_nil]

theorem mem_process_approved_done (env : Env) (t : String) (s : Vault) (x : VaultFile)
    (hnd : ((check_approved_actions s).map VaultFile.name).Nodup) :
    x ∈ ((process_approved_actions env t s).1).done ↔
      (x ∈ s.done ∧ ∀ f ∈ check_approved_actions s, env f.name = none → x.name ≠ f.name)
      ∨ (x ∈ check_approved_actions s ∧ env x.name = none) :=
  mem_processList_done env t (check_approved_actions s) s x hnd

theorem process_approved_done_name_fail (env : Env) (t : String) (s : Vault)
    (n : String) (h : env n ≠ none) :
    ((process_approved_actions env t s).1).done.filter (fun x => x.name == n)
      = s.done.filter (fun x => x.name == n) :=
  processList_done_name_fail env t (check_approved_actions s) s n h

theorem process_approved_events_split (env : Env) (t : String) (s : Vault)
    (r : VaultFile) (hr : r ∈ check_approved_actions s) :
    ∃ pre post,
      (process_approved_actions env t s).2 = pre ++ eventsFor env t r ++ post :=
  processList_events_split env t (check_approved_actions s) s r hr

/-- C2 — approved records are logged before the move, and an error leaves
them in place.  For a record in the `Approved` snapshot of a pass: if its
processing succeeds, the pass trace contains the appended action-log line
immediately followed by the move to `Done`, and the record ends in `Done`
and out of `Approved`; if any step of its processing raises, no move event
for it exists and it stays in `Approved`, eligible for the next pass. -/
theorem claim_C2_approved_logged_before_move (env : Env) (t : String) (s : Vault)
    (r : VaultFile) (hr : r ∈ check_approved_actions s)
    (hnd : ((check_approved_actions s).map VaultFile.name).Nodup) :
    (env r.name = none →
      (∃ pre post, (process_approved_actions env t s).2
          = pre ++ [Event.logEntry (approvalLogEntry t r),
                    Event.move r.name "Approved" "Done"] ++ post) ∧
      r ∈ ((process_approved_actions env t s).1).done ∧
      r ∉ ((process_approved_actions env t s).1).approved) ∧
    (env r.name ≠ none →
      (∀ src dst, Event.move r.name src dst ∉ (process_approved_actions env t s).2) ∧
      r ∈ ((process_approved_actions env t s).1).approved) := by
  have hrs : r ∈ s.approved := (List.mem_filter.mp hr).1
  constructor
  · intro henv
    refine ⟨?_, ?_, ?_⟩
    · obtain ⟨pre, post, hsplit⟩ := process_approved_events_split env t s r hr
      rw [eventsFor, henv] at hsplit
      refine ⟨pre ++ [Event.infoLog ("Processing approved action: " ++ r.name
          ++ " (type: " ++ actionStr (extract_field r.content "action") ++ ")")],
        Event.infoLog ("Moved " ++ r.name ++ " to Done") :: post, ?_⟩
      rw [hsplit]
      simp
    · exact (mem_process_approved_done env t s r hnd).mpr (Or.inr ⟨hr, henv⟩)
    · intro habs
      have := ((mem_process_approved env t s r).mp habs).2 r hr henv
      exact this rfl
  · intro henv
    constructor
    · intro src dst hmem
      rw [process_approved_events] at hmem
      obtain ⟨f, _, hname, hfenv, _, _⟩ := move_mem_flatten env t _ _ _ _ hmem
      rw [hname] at henv
      exact henv hfenv
    · refine (mem_process_approved env t s r).mpr ⟨hrs, ?_⟩
      intro f hf hfe hname
      rw [hname] at henv
      exact henv hfe

/-- Witness for C2 at a concrete vault: `a.md` succeeds and moves;
under the all-fail environment it stays. -/
theorem claim_C2_approved_logged_before_move_witness :
    (⟨"a.md", ["action: send_email"]⟩ : VaultFile) ∈ check_approved_actions wVaultAB ∧
    (⟨"a.md", ["action: send_email"]⟩ : VaultFile)
        ∈ ((process_approved_actions wEnvNone "T" wVaultAB).1).done ∧
    (⟨"a.md", ["action: send_email"]⟩ : VaultFile)
        ∈ ((process_approved_actions wEnvRead "T" wVaultAB).1).approved := by
  refine ⟨by decide, ?_, ?_⟩
  · exact ((claim_C2_approved_logged_before_move wEnvNone "T" wVaultAB _
      (by decide) (by decide)).1 rfl).2.1
  · exact ((claim_C2_approved_logged_before_move wEnvRead "T" wVaultAB _
      (by decide) (by decide)).2 (by decide)).2

/-- C3 — contrary to the claim, `process_rejected_actions` performs no
archival: after any pass the `Rejected` partition is exactly what it was,
and the trace contains no move out of `Rejected` (the loop only emits
`Archiving rejected action: …` info logs).  No `RejectedArchive` partition
exists in the orchestrator at all. -/
theorem claim_C3_rejected_records_never_moved (env : Env) (t : String) (s : Vault) :
    (runPass env t s).1.rejected = s.rejected ∧
    ∀ n dst, Event.move n "Rejected" dst ∉ (runPass env t s).2 := by
  refine ⟨(runPass_partitions env t s).2.2.1, ?_⟩
  intro n dst hmem
  have hsplit : (runPass env t s).2
      = (process_approved_actions env t s).2
        ++ (globMd ((process_approved_actions env t s).1).rejected).map
             (fun f => Event.infoLog ("Archiving rejected action: " ++ f.name)) := rfl
  rw [hsplit, List.mem_append] at hmem
  rcases hmem with hmem | hmem
  · rw [process_approved_events] at hmem
    obtain ⟨f, _, _, _, habs, _⟩ := move_mem_flatten env t _ _ _ _ hmem
    exact absurd habs (by decide)
  · obtain ⟨f, _, habs⟩ := List.mem_map.mp hmem
    cases habs

/-- C5 (amended) — a record that is gone by the time of its move raises an
exception that the `except` clause catches and logs as a generic error: the
per-record outcome is `errorLogged`, not a distinct `Conflict` report; the
`Done` entries under that name are unchanged (no duplicate is created), and
the pass continues, still moving every other successfully processed
record. -/
theorem claim_C5_move_race_logged_not_conflict (env : Env) (t : String) (s : Vault)
    (r : VaultFile) (hr : r ∈ check_approved_actions s)
    (henv : env r.name = some FailPoint.move)
    (hnd : ((check_approved_actions s).map VaultFile.name).Nodup) :
    (processOne env t s r).2 = Outcome.errorLogged ∧
    Event.errorLog ("Error processing approved action " ++ r.name)
        ∈ (process_approved_actions env t s).2 ∧
    ((process_approved_actions env t s).1).done.filter (fun x => x.name == r.name)
      = s.done.filter (fun x => x.name == r.name) ∧
    ∀ r' ∈ check_approved_actions s, r'.name ≠ r.name → env r'.name = none →
      r' ∈ ((process_approved_actions env t s).1).done := by
  refine ⟨by simp [processOne, henv], ?_, ?_, ?_⟩
  · obtain ⟨pre, post, hsplit⟩ := process_approved_events_split env t s r hr
    rw [hsplit, eventsFor, henv]
    simp
  · exact process_approved_done_name_fail env t s r.name (by simp [henv])
  · intro r' hr' _ hre
    exact (mem_process_approved_done env t s r' hnd).mpr (Or.inr ⟨hr', hre⟩)

/-- Counterexample for C5 as stated: when the move of `a.md` is raced away,
the code's per-record outcome is the logged generic error, not the
`Conflict` report the claim requires. -/
theorem claim_C5_counterexample :
    (processOne wEnvMove "T" wVaultAB ⟨"a.md", ["action: send_email"]⟩).2
        ≠ Outcome.conflict ∧
    (processOne wEnvMove "T" wVaultAB ⟨"a.md", ["action: send_email"]⟩).2
        = Outcome.errorLogged := by
  exact ⟨by decide, by decide⟩

/-- Witness for C5 at a concrete vault: with `a.md`'s move racing away,
its outcome is `errorLogged` and `b.md`… (the all-`move`-fail environment
leaves `Done` untouched). -/
theorem claim_C5_move_race_logged_not_conflict_witness :
    (⟨"a.md", ["action: send_email"]⟩ : VaultFile) ∈ check_approved_actions wVaultAB ∧
    (processOne wEnvMove "T" wVaultAB ⟨"a.md", ["action: send_email"]⟩).2
        = Outcome.errorLogged := by
  refine ⟨by decide, ?_⟩
  exact (claim_C5_move_race_logged_not_conflict wEnvMove "T" wVaultAB _
    (by decide) (by decide) (by decide)).1

/-- C9 — per-record error isolation.  Changing the environment at a single
record name `b` (injecting or removing a fault there) does not change the
fate of any other record of the `Approved` snapshot, nor whether any other
plan file counts as active; and the pass always returns (every exception is
caught per record). -/
theorem claim_C9_per_record_error_isolation (env env' : Env) (t : String) (s : Vault)
    (b : String) (hdiff : ∀ n, n ≠ b → env n = env' n)
    (hnd : ((check_approved_actions s).map VaultFile.name).Nodup) :
    (∀ r ∈ check_approved_actions s, r.name ≠ b →
      ((r ∈ ((process_approved_actions env t s).1).done ↔
        r ∈ ((process_approved_actions env' t s).1).done) ∧
       (r ∈ ((process_approved_actions env t s).1).approved ↔
        r ∈ ((process_approved_actions env' t s).1).approved))) ∧
    (∀ p ∈ globMd s.plans, p.name ≠ b →
      (p ∈ check_active_plans env s ↔ p ∈ check_active_plans env' s)) := by
  constructor
  · intro r hr hrb
    have hcond : ∀ f ∈ check_approved_actions s,
        ((env f.name = none → r.name ≠ f.name) ↔
         (env' f.name = none → r.name ≠ f.name)) := by
      intro f _
      by_cases hfb : f.name = b
      · constructor
        · intro _ _
          rw [hfb]
          exact hrb
        · intro _ _
          rw [hfb]
          exact hrb
      · rw [hdiff f.name hfb]
    constructor
    · rw [mem_process_approved_done env t s r hnd,
        mem_process_approved_done env' t s r hnd,
        hdiff r.name hrb]
      constructor
      · rintro (⟨h1, h2⟩ | h)
        · exact Or.inl ⟨h1, fun f hf => (hcond f hf).mp (h2 f hf)⟩
        · exact Or.inr h
      · rintro (⟨h1, h2⟩ | h)
        · exact Or.inl ⟨h1, fun f hf => (hcond f hf).mpr (h2 f hf)⟩
        · exact Or.inr h
    · rw [mem_process_approved env t s r, mem_process_approved env' t s r]
      constructor
      · rintro ⟨h1, h2⟩
        exact ⟨h1, fun f hf => (hcond f hf).mp (h2 f hf)⟩
      · rintro ⟨h1, h2⟩
        exact ⟨h1, fun f hf => (hcond f hf).mpr (h2 f hf)⟩
  · intro p hp hpb
    unfold check_active_plans
    rw [List.mem_filter, List.mem_filter, hdiff p.name hpb]

/-- Witness for C9: removing the fault at `b.md` does not change `a.md`'s
fate, nor the plan file's activity. -/
theorem claim_C9_per_record_error_isolation_witness :
    ((⟨"a.md", ["action: send_email"]⟩ : VaultFile)
        ∈ ((process_approved_actions wEnvOnlyB "T" wVaultAB).1).done ↔
     (⟨"a.md", ["action: send_email"]⟩ : VaultFile)
        ∈ ((process_approved_actions wEnvNone "T" wVaultAB).1).done) := by
  exact (((claim_C9_per_record_error_isolation wEnvOnlyB wEnvNone "T" wVaultAB
    "b.md" (by intro n hn; simp [wEnvOnlyB, wEnvNone]; intro heq; exact absurd heq hn)
    (by decide)).1 _ (by decide) (by decide)).1)

/-! ## Lemmas for the remaining claims -/

theorem errorLog_mem_eventsFor (env : Env) (t : String) (r : VaultFile)
    (p : FailPoint) (h : env r.name = some p) :
    Event.errorLog ("Error processing approved action " ++ r.name)
      ∈ eventsFor env t r := by
  cases p <;> simp [eventsFor, h]

/-- A pending-approval bottleneck entry is always the `Approval expired`
entry of the file that produced it. -/
theorem pending_bottleneck_shape (now : Int) (f : AuditFile) (b : Bottleneck)
    (h : pending_bottleneck now f = some b) :
    b = { issue := "Approval expired", item := f.name, impact := "High",
          recommendation := "Review and approve/reject or create new request" } := by
  unfold pending_bottleneck at h
  split at h
  · cases h
  split at h
  · cases h
  split at h
  · cases h
  split at h
  · injection h with h2
    exact h2.symm
  · cases h

/-- Every bottleneck entry refers to a file of the `Needs_Action` list or
of the pending list passed to the analysis — never to any other record
(in particular never to a record of `Approved`). -/
theorem analyze_item_source (now : Int) (naF pF : List AuditFile) (b : Bottleneck)
    (hb : b ∈ analyze_bottlenecks now naF pF) :
    b.item ∈ naF.map AuditFile.name ∨ b.item ∈ pF.map AuditFile.name := by
  unfold analyze_bottlenecks at hb
  rw [List.mem_append] at hb
  rcases hb with hb | hb
  · obtain ⟨f, hf, rfl⟩ := List.mem_map.mp hb
    exact Or.inl (List.mem_map_of_mem AuditFile.name (List.mem_filter.mp hf).1)
  · obtain ⟨f, hf, heq⟩ := List.mem_filterMap.mp hb
    rw [pending_bottleneck_shape now f b heq]
    exact Or.inr (List.mem_map_of_mem AuditFile.name hf)

/-- `find?` on the overwrite pattern of `write_text`: the filtered prefix
holds nothing under the name, so the appended entry is found. -/
theorem find?_filter_append (l : Store) (n : String) (c : List String) :
    ((l.filter (fun p => p.1 != n)) ++ [(n, c)]).find? (fun p => p.1 == n)
      = some (n, c) := by
  induction l with
  | nil =>
      show List.find? (fun p => p.1 == n) [(n, c)] = some (n, c)
      simp [List.find?_cons]
  | cons x xs ih =>
      rw [List.filter_cons]
      by_cases hx : (x.1 != n) = true
      · rw [if_pos hx, List.cons_append]
        have hx2 : (x.1 == n) = false := by simpa [bne] using hx
        simp only [List.find?_cons, hx2]
        exact ih
      · rw [if_neg hx]
        exact ih

/-! ## Remaining claims -/

/-- C4 (amended) — a record whose execution keeps failing is never
annotated: it stays in `Approved` with its content unchanged after any
number of passes (the record value `r`, content included, is still there),
every subsequent pass still attempts it and logs the error (retry is never
disabled, but also never flagged), and the bottleneck analysis can only
ever name `Needs_Action` or pending-approval files, so the failing record
is never surfaced there. -/
theorem claim_C4_failed_records_never_stalled (env : Env) (t : String) (s : Vault)
    (r : VaultFile) (p : FailPoint) (hr : r ∈ s.approved)
    (hmd : pyEndsWith r.name ".md" = true) (henv : env r.name = some p) :
    (∀ n, r ∈ (runPasses env t n s).approved) ∧
    (∀ n, Event.errorLog ("Error processing approved action " ++ r.name)
        ∈ (runPass env t (runPasses env t n s)).2) ∧
    (∀ (now : Int) (naF pF : List AuditFile) (b : Bottleneck),
      b ∈ analyze_bottlenecks now naF pF →
        b.item ∈ naF.map AuditFile.name ∨ b.item ∈ pF.map AuditFile.name) := by
  have hstep : ∀ s' : Vault, r ∈ s'.approved → r ∈ (runPass env t s').1.approved := by
    intro s' hr'
    rw [(runPass_partitions env t s').2.2.2.2.1]
    refine (mem_process_approved env t s' r).mpr ⟨hr', ?_⟩
    intro f _ hfe hname
    rw [hname] at henv
    rw [hfe] at henv
    cases henv
  have hiter : ∀ n, ∀ s' : Vault, r ∈ s'.approved → r ∈ (runPasses env t n s').approved := by
    intro n
    induction n with
    | zero => exact fun s' h => h
    | succ m ih => exact fun s' h => ih (runPass env t s').1 (hstep s' h)
  refine ⟨fun n => hiter n s hr, ?_, analyze_item_source⟩
  intro n
  have hrn : r ∈ check_approved_actions (runPasses env t n s) :=
    List.mem_filter.mpr ⟨hiter n s hr, hmd⟩
  obtain ⟨pre, post, hsplit⟩ :=
    process_approved_events_split env t (runPasses env t n s) r hrn
  have htr : (runPass env t (runPasses env t n s)).2
      = (process_approved_actions env t (runPasses env t n s)).2
        ++ (globMd ((process_approved_actions env t (runPasses env t n s)).1).rejected).map
             (fun f => Event.infoLog ("Archiving rejected action: " ++ f.name)) := rfl
  rw [htr, hsplit]
  have := errorLog_mem_eventsFor env t r p henv
  simp only [List.mem_append]
  exact Or.inl (Or.inl (Or.inr this))

/-- Counterexample for C4 as stated: `r3.md` fails three consecutive
passes, yet afterwards its content is unchanged (no `stalled` annotation
exists anywhere — even the action log is empty), the bottleneck analysis
over the store's (empty) `Needs_Action` and `Pending_Approval` partitions
surfaces nothing, and a fourth pass still attempts it. -/
theorem claim_C4_counterexample :
    (runPasses wEnvRead "T" 3 wVaultR3).approved = [⟨"r3.md", []⟩] ∧
    (runPasses wEnvRead "T" 3 wVaultR3).logs = [] ∧
    analyze_bottlenecks wNow [] [] = [] ∧
    Event.errorLog "Error processing approved action r3.md"
        ∈ (runPass wEnvRead "T" (runPasses wEnvRead "T" 3 wVaultR3)).2 :=
  ⟨by decide, by decide, rfl, by decide⟩

/-- Witness for C4: after three failing passes `r3.md` is still in
`Approved`. -/
theorem claim_C4_failed_records_never_stalled_witness :
    (⟨"r3.md", []⟩ : VaultFile) ∈ (runPasses wEnvRead "T" 3 wVaultR3).approved :=
  (claim_C4_failed_records_never_stalled wEnvRead "T" wVaultR3 ⟨"r3.md", []⟩
    FailPoint.read (by decide) (by decide) (by decide)).1 3

/-- C7 — a pending-approval record whose (parseable, non-empty) `expires`
header lies strictly in the past is flagged by the weekly audit as an
`Approval expired` bottleneck with High impact, and no orchestrator pass
ever moves any record out of `Pending_Approval` — expiry is advisory
only. -/
theorem claim_C7_expired_pending_flagged_never_moved (now : Int)
    (naF pF : List AuditFile) (p : AuditFile) (hp : p ∈ pF)
    (hmd : pyEndsWith p.name ".md" = true) (e : String)
    (he : wa_extract_field p.content "expires" = some e)
    (hne : (e == "") = false) (texp : Int)
    (hparse : isoToEpoch (pyReplace (pyReplace e "Z" "+00:00") "+00:00" "") = some texp)
    (hpast : texp < now) :
    (∃ b ∈ audit_bottlenecks now naF pF,
        b.item = p.name ∧ b.issue = "Approval expired" ∧ b.impact = "High") ∧
    (∀ (env : Env) (t : String) (s : Vault),
        (runPass env t s).1.pendingApproval = s.pendingApproval) := by
  constructor
  · refine ⟨Bottleneck.mk "Approval expired" p.name "High"
      "Review and approve/reject or create new request", ?_, rfl, rfl, rfl⟩
    unfold audit_bottlenecks analyze_bottlenecks
    rw [List.mem_append]
    refine Or.inr (List.mem_filterMap.mpr ⟨p, List.mem_filter.mpr ⟨hp, hmd⟩, ?_⟩)
    simp only [pending_bottleneck, he]
    rw [if_neg (by simp [hne])]
    simp only [hparse]
    rw [if_pos hpast]
  · intro env t s
    exact (runPass_partitions env t s).2.1

/-- Witness for C7: `r2.md` with `expires: 2020-01-01T00:00:00` analysed
at `wNow` (November 2023). -/
theorem claim_C7_expired_pending_flagged_never_moved_witness :
    wa_extract_field wPendingExpired.content "expires" = some "2020-01-01T00:00:00" ∧
    (∃ b ∈ audit_bottlenecks wNow [] [wPendingExpired],
        b.item = wPendingExpired.name ∧ b.issue = "Approval expired" ∧
        b.impact = "High") := by
  refine ⟨by decide, ?_⟩
  exact (claim_C7_expired_pending_flagged_never_moved wNow [] [wPendingExpired]
    wPendingExpired (by decide) (by decide) "2020-01-01T00:00:00" (by decide)
    (by decide) 1577836800 (by decide) (by decide)).1

/-- C8 (amended) — the weekly audit's bottleneck list, as `generate_audit`
builds it, sees only the `Needs_Action` files whose mtime falls inside the
current week (`get_files_in_week` runs before `analyze_bottlenecks`);
among those, a record is listed exactly when `(now - mtime).days > 3`, and
its entry's impact is `Medium` for fewer than 7 days and `High` otherwise.
A record modified before the week start is never listed, whatever its
age. -/
theorem claim_C8_staleness_only_inside_week (now : Int) (naF pF : List AuditFile)
    (r : AuditFile) (hr : r ∈ naF) (hmd : pyEndsWith r.name ".md" = true)
    (hnd : (naF.map AuditFile.name).Nodup)
    (hpf : ∀ q ∈ pF, q.name ≠ r.name) :
    ((∃ b ∈ audit_bottlenecks now naF pF, b.item = r.name) ↔
      (get_week_start now ≤ r.mtime ∧ r.mtime < get_week_start now + 7 * 86400 ∧
        3 < age_days now r)) ∧
    (∀ b ∈ audit_bottlenecks now naF pF, b.item = r.name →
      b.impact = (if age_days now r < 7 then "Medium" else "High")) := by
  have hinj := List.inj_on_of_nodup_map hnd
  constructor
  · constructor
    · rintro ⟨b, hb, hitem⟩
      unfold audit_bottlenecks analyze_bottlenecks at hb
      rw [List.mem_append] at hb
      rcases hb with hb | hb
      · obtain ⟨f, hf, rfl⟩ := List.mem_map.mp hb
        have hf2 := List.mem_filter.mp hf
        have hf3 := List.mem_filter.mp hf2.1
        have hfr : f = r := hinj hf3.1 hr hitem
        subst hfr
        have hcond := hf3.2
        simp only [Bool.and_eq_true, decide_eq_true_eq] at hcond
        have hage := hf2.2
        simp only [decide_eq_true_eq] at hage
        exact ⟨hcond.1.2, hcond.2, hage⟩
      · obtain ⟨q, hq, heq⟩ := List.mem_filterMap.mp hb
        rw [pending_bottleneck_shape now q b heq] at hitem
        exact absurd hitem (hpf q (List.mem_filter.mp hq).1)
    · rintro ⟨h1, h2, h3⟩
      refine ⟨na_bottleneck now r, ?_, rfl⟩
      unfold audit_bottlenecks analyze_bottlenecks
      rw [List.mem_append]
      refine Or.inl (List.mem_map_of_mem (na_bottleneck now) ?_)
      refine List.mem_filter.mpr ⟨List.mem_filter.mpr ⟨hr, ?_⟩, ?_⟩
      · have h2' : r.mtime < get_week_start now + 604800 := by omega
        simp [hmd, h1, h2']
      · simp [h3]
  · intro b hb hitem
    unfold audit_bottlenecks analyze_bottlenecks at hb
    rw [List.mem_append] at hb
    rcases hb with hb | hb
    · obtain ⟨f, hf, rfl⟩ := List.mem_map.mp hb
      have hf2 := List.mem_filter.mp hf
      have hf3 := List.mem_filter.mp hf2.1
      have hfr : f = r := hinj hf3.1 hr hitem
      subst hfr
      rfl
    · obtain ⟨q, hq, heq⟩ := List.mem_filterMap.mp hb
      rw [pending_bottleneck_shape now q b heq] at hitem
      exact absurd hitem (hpf q (List.mem_filter.mp hq).1)

/-- Counterexample for C8 as stated: `old.md` sits in `Needs_Action` with
an age of 10 days — well past the 3-day threshold — yet the audit's
bottleneck list is empty, because its mtime precedes the current week's
Monday and `get_files_in_week` discards it before the analysis. -/
theorem claim_C8_counterexample :
    3 < age_days wNow wStaleNA ∧
    wStaleNA ∈ [wStaleNA] ∧
    audit_bottlenecks wNow [wStaleNA] [] = [] :=
  ⟨by decide, List.mem_cons_self _ _, by decide⟩

/-- Witness for C8 at a record inside the week window: 4 days old on a
Saturday, hence listed. -/
theorem claim_C8_staleness_only_inside_week_witness :
    ∃ b ∈ audit_bottlenecks wNow2 [wWindowStale] [], b.item = wWindowStale.name := by
  refine ((claim_C8_staleness_only_inside_week wNow2 [wWindowStale] []
    wWindowStale (List.mem_cons_self _ _) (by decide) (by decide)
    (by intro q hq; cases hq)).1).mpr ?_
  exact ⟨by decide, by decide, by decide⟩

/-- C10 — only `*.md` files exist for the orchestrator: a file whose name
does not end in `.md` is never returned by any check operation, adding it
to any counted folder leaves every dashboard count unchanged, and no pass
ever emits a move for a non-`.md` name. -/
theorem claim_C10_non_md_files_invisible (env : Env) (t : String) (s : Vault)
    (r : VaultFile) (hmd : pyEndsWith r.name ".md" = false) :
    r ∉ check_needs_action s ∧
    r ∉ check_pending_approvals s ∧
    r ∉ check_approved_actions s ∧
    r ∉ check_active_plans env s ∧
    countsOf env { s with needsAction := r :: s.needsAction } = countsOf env s ∧
    countsOf env { s with done := r :: s.done } = countsOf env s ∧
    countsOf env { s with pendingApproval := r :: s.pendingApproval } = countsOf env s ∧
    countsOf env { s with plans := r :: s.plans } = countsOf env s ∧
    (∀ src dst, Event.move r.name src dst ∉ (runPass env t s).2) := by
  refine ⟨?_, ?_, ?_, ?_, ?_, ?_, ?_, ?_, ?_⟩
  · simp [check_needs_action, globMd, List.mem_filter, hmd]
  · simp [check_pending_approvals, globMd, List.mem_filter, hmd]
  · simp [check_approved_actions, globMd, List.mem_filter, hmd]
  · intro habs
    have := (List.mem_filter.mp habs).1
    have := (List.mem_filter.mp this).2
    rw [hmd] at this
    cases this
  · simp [countsOf, check_active_plans, globMd, List.filter_cons, hmd]
  · simp [countsOf, check_active_plans, globMd, List.filter_cons, hmd]
  · simp [countsOf, check_active_plans, globMd, List.filter_cons, hmd]
  · simp [countsOf, check_active_plans, globMd, List.filter_cons, hmd]
  · intro src dst hmem
    have htr : (runPass env t s).2
        = (process_approved_actions env t s).2
          ++ (globMd ((process_approved_actions env t s).1).rejected).map
               (fun f => Event.infoLog ("Archiving rejected action: " ++ f.name)) := rfl
    rw [htr, List.mem_append] at hmem
    rcases hmem with hmem | hmem
    · rw [process_approved_events] at hmem
      obtain ⟨f, hf, hname, _, _, _⟩ := move_mem_flatten env t _ _ _ _ hmem
      have := (List.mem_filter.mp hf).2
      rw [← hname, hmd] at this
      cases this
    · obtain ⟨f, _, habs⟩ := List.mem_map.mp hmem
      cases habs

/-- Witness for C10: `notes.txt` is invisible to the checks of the
concrete vault. -/
theorem claim_C10_non_md_files_invisible_witness :
    pyEndsWith wNonMd.name ".md" = false ∧
    wNonMd ∉ check_approved_actions wVaultAB ∧
    countsOf wEnvNone { wVaultAB with needsAction := wNonMd :: wVaultAB.needsAction }
      = countsOf wEnvNone wVaultAB := by
  have h := claim_C10_non_md_files_invisible wEnvNone "T" wVaultAB wNonMd (by decide)
  exact ⟨by decide, h.2.2.1, h.2.2.2.2.1⟩

/-- C6 (amended) — creation never fails and never checks for an existing
record: `create_action_file` writes the rendered content under
`FILE_{timestamp}_{stem}.md` unconditionally, silently replacing whatever
was stored under that name (`write_text` truncates).  No `DuplicateId`
outcome exists in the watchers, and the name depends only on the
second-granularity timestamp and the source stem. -/
theorem claim_C6_creation_silently_overwrites (store : Store) (ts : String)
    (src : SourceFile) (det : String) :
    lookupStore (create_action_file store ts src det) (fileActionName ts src.stem)
      = some (fileDropContent src det) := by
  unfold create_action_file write_text lookupStore
  rw [find?_filter_append]
  rfl

/-- Counterexample for C6 as stated: a second submission colliding with
`wOldStore`'s record does not fail with `DuplicateId` — it overwrites the
stored content (the spec-modelled `create_spec` would have refused); and
two distinct source files with the same stem map to the same id in the
same second. -/
theorem claim_C6_counterexample :
    lookupStore wOldStore (fileActionName "20250101_120000" wSrcReport.stem)
        = some ["old content"] ∧
    lookupStore (create_action_file wOldStore "20250101_120000" wSrcReport "D")
        (fileActionName "20250101_120000" wSrcReport.stem)
      = some (fileDropContent wSrcReport "D") ∧
    fileDropContent wSrcReport "D" ≠ ["old content"] ∧
    create_spec wOldStore (fileActionName "20250101_120000" wSrcReport.stem)
        (fileDropContent wSrcReport "D") = CreateResult.duplicateId ∧
    wSrcReport ≠ wSrcReport2 ∧
    fileActionName "20250101_120000" wSrcReport.stem
      = fileActionName "20250101_120000" wSrcReport2.stem :=
  ⟨by decide, by decide, by decide, by decide, by decide, by decide⟩

end AIEmployee

